import Mathlib

set_option maxRecDepth 10000

/-!
Shallow embedding of the formula-evaluation and cost-aggregation core of the
simpleprojex repository (src/lib/formula-evaluator.ts and the create-proposal
page component), together with theorems settling the frozen claims.

Modelling conventions:
* JS strings are `List Char` (wrapped in `String` at the interfaces).
* JS numbers are modelled by `JsNum`: an exact rational for finite values plus
  the distinguished values Infinity, -Infinity and NaN.  The arithmetic of the
  evaluated formulas (`+ - * / % ( )` over numeric literals) is modelled
  exactly over ℚ with the IEEE rules for the non-finite values; binary-float
  rounding is not modelled, matching the spec's "exact arithmetic" reading.
* `param.value.toString()` is modelled by storing the textual form of the
  value directly in the `value` field.
* The host evaluation `new Function("return " + text)()` is modelled by
  `jsEval`, a lexer/parser/evaluator for the arithmetic-expression fragment
  that substituted formulas consist of (numeric literals, `+ - * / % ( )`,
  unary signs, whitespace); any other text is a syntax error (`none`), which
  the evaluator's catch-branch converts to a 0 return.
-/

namespace Simpleprojex

/-- ASCII decimal digit, as in the JS regex character class `\d`/`[0-9]`. -/
def isDigitC (c : Char) : Bool := 48 ≤ c.toNat && c.toNat ≤ 57

/-- ASCII letter, as in `[a-zA-Z]`. -/
def isAlphaC (c : Char) : Bool :=
  (65 ≤ c.toNat && c.toNat ≤ 90) || (97 ≤ c.toNat && c.toNat ≤ 122)

/-- JS word character `\w` = `[A-Za-z0-9_]`, the class that the `\b` anchors
of the source's substitution regex and its leftover-identifier scan use. -/
def isWordChar (c : Char) : Bool := isAlphaC c || isDigitC c || c == '_'

/-- First character of an identifier-like token: `[a-zA-Z_]`. -/
def isIdentStart (c : Char) : Bool := isAlphaC c || c == '_'

/-- Nonempty and made of word characters only: the names for which the
pattern `\bname\b` matches exactly the maximal word-character runs equal to
`name`. -/
def isWordName (n : List Char) : Bool := !n.isEmpty && n.all isWordChar

/-- Identifier-like name: `[a-zA-Z_][a-zA-Z0-9_]*` (the shape the data model
requires of parameter names). -/
def isIdentName : List Char → Bool
  | [] => false
  | c :: cs => isIdentStart c && cs.all isWordChar

/-- Emit a completed maximal word run: rewritten to `val` when it equals
`name`, kept otherwise. -/
def flushRun (name val run : List Char) : List Char := if run = name then val else run

/-- Worker for `replaceTokens`: `run` accumulates the current maximal word
run, which is flushed (and possibly rewritten) when it ends. -/
def replaceTokensAux (name val : List Char) : List Char → List Char → List Char
  | run, [] => flushRun name val run
  | run, c :: cs =>
    if isWordChar c then replaceTokensAux name val (run ++ [c]) cs
    else flushRun name val run ++ c :: replaceTokensAux name val [] cs

/-- Global replacement of the regex `\bname\b` by `val`, for a `name` that
consists of word characters: such a pattern matches exactly the maximal runs
of word characters that are equal to `name`, and `String.replace` with a
global regex rewrites every (non-overlapping, left-to-right) match.  This
function therefore walks the string, and rewrites each maximal word run that
equals `name` to `val`. -/
def replaceTokens (name val s : List Char) : List Char := replaceTokensAux name val [] s

/-- A `{name, value}` record as consumed by `evaluateFormula`
(`Array<{ name: string; value: string | number }>`); `value` holds the
textual form `param.value.toString()`. -/
structure Param where
  name : String
  value : String
deriving DecidableEq

/-- One step of the source's `parameters.forEach` loop:
`evaluableFormula = evaluableFormula.replace(new RegExp(`\\b name \\b`, "g"), param.value.toString())`.
The embedding covers names made of word characters (the data model requires
identifier-like parameter names); for any other name the regex either matches
nothing or is not a literal-token pattern, and the embedding treats the step
as a no-op. -/
def substParam (s : List Char) (p : Param) : List Char :=
  if isWordName p.name.data then replaceTokens p.name.data p.value.data s else s

/-- The whole substitution loop over the parameter array, in array order. -/
def substAll (s : List Char) (ps : List Param) : List Char :=
  ps.foldl substParam s

/-- Scanner for the leftover-identifier check.  The Boolean argument records
whether the previous character was a word character; the source pattern
`/\b[a-zA-Z_][a-zA-Z0-9_]*\b/` matches somewhere iff some letter/underscore
occurs at a position not preceded by a word character (the trailing
`[a-zA-Z0-9_]*\b` part always succeeds on the maximal word run). -/
def leftoverIdentAux : Bool → List Char → Bool
  | _, [] => false
  | prevWord, c :: cs => (!prevWord && isIdentStart c) || leftoverIdentAux (isWordChar c) cs

/-- `evaluableFormula.match(/\b[a-zA-Z_][a-zA-Z0-9_]*\b/g)` is non-null. -/
def hasLeftoverIdent (s : List Char) : Bool := leftoverIdentAux false s

/-- A JS number: an exact rational for the finite values, plus Infinity,
-Infinity and NaN. -/
inductive JsNum where
  | num (q : ℚ)
  | inf
  | negInf
  | nan
deriving DecidableEq

namespace JsNum

/-- JS addition on numbers (IEEE rules for the non-finite values). -/
def add : JsNum → JsNum → JsNum
  | nan, _ => nan
  | _, nan => nan
  | inf, negInf => nan
  | negInf, inf => nan
  | inf, _ => inf
  | _, inf => inf
  | negInf, _ => negInf
  | _, negInf => negInf
  | num a, num b => num (a + b)

/-- JS unary negation. -/
def neg : JsNum → JsNum
  | num a => num (-a)
  | inf => negInf
  | negInf => inf
  | nan => nan

/-- JS subtraction (`a - b = a + (-b)` exactly, also under IEEE). -/
def sub (a b : JsNum) : JsNum := a.add b.neg

/-- JS multiplication (IEEE rules; `0 * ±∞ = NaN`). -/
def mul : JsNum → JsNum → JsNum
  | nan, _ => nan
  | _, nan => nan
  | num a, num b => num (a * b)
  | num a, inf => if 0 < a then inf else if a < 0 then negInf else nan
  | num a, negInf => if 0 < a then negInf else if a < 0 then inf else nan
  | inf, num b => if 0 < b then inf else if b < 0 then negInf else nan
  | negInf, num b => if 0 < b then negInf else if b < 0 then inf else nan
  | inf, inf => inf
  | inf, negInf => negInf
  | negInf, inf => negInf
  | negInf, negInf => inf

/-- JS division: a nonzero finite number divided by 0 gives ±Infinity and
`0 / 0` gives NaN (the model has no signed zero). -/
def div : JsNum → JsNum → JsNum
  | nan, _ => nan
  | _, nan => nan
  | num a, num b =>
      if b = 0 then (if a = 0 then nan else if 0 < a then inf else negInf)
      else num (a / b)
  | num _, inf => num 0
  | num _, negInf => num 0
  | inf, num b => if 0 ≤ b then inf else negInf
  | negInf, num b => if 0 ≤ b then negInf else inf
  | inf, inf => nan
  | inf, negInf => nan
  | negInf, inf => nan
  | negInf, negInf => nan

/-- Truncation toward zero, used by the JS remainder operator. -/
def truncQ (q : ℚ) : ℚ := if 0 ≤ q then (⌊q⌋ : ℚ) else (⌈q⌉ : ℚ)

/-- JS remainder `%`: `a % b = a - b * trunc(a / b)` for finite operands,
NaN when the divisor is 0 or the dividend is infinite, and `a` itself when
the divisor is infinite. -/
def mod : JsNum → JsNum → JsNum
  | nan, _ => nan
  | _, nan => nan
  | inf, _ => nan
  | negInf, _ => nan
  | num a, inf => num a
  | num a, negInf => num a
  | num a, num b => if b = 0 then nan else num (a - b * truncQ (a / b))

/-- Finite JS numbers (Infinity, -Infinity and NaN are not finite). -/
def isFinite : JsNum → Bool
  | num _ => true
  | _ => false

/-- The rational carried by a finite JS number (0 for the non-finite ones). -/
def finPart : JsNum → ℚ
  | num q => q
  | _ => 0

end JsNum

/-- Tokens of the arithmetic-expression fragment evaluated by the host. -/
inductive Tok where
  | num (q : ℚ)
  | plus
  | minus
  | star
  | slash
  | percent
  | lparen
  | rparen
deriving DecidableEq

/-- Value of a digit string, most significant digit first. -/
def digitsToNat (ds : List Char) : Nat :=
  ds.foldl (fun a c => a * 10 + (c.toNat - 48)) 0

/-- Scale a rational by a power of ten (the exponent part of a literal). -/
def applyExp (q : ℚ) (e : Int) : ℚ :=
  if 0 ≤ e then q * (10 : ℚ) ^ e.toNat else q / (10 : ℚ) ^ (-e).toNat

/-- Lex one JS decimal numeric literal (`digits`, `digits.digits`,
`.digits`, optional `e`/`E` exponent) from the front of `s`; returns its
exact rational value and the remaining characters. -/
def lexNum (s : List Char) : Option (ℚ × List Char) :=
  let intPart := s.takeWhile isDigitC
  let s1 := s.dropWhile isDigitC
  let hasDot := match s1 with
    | '.' :: _ => true
    | _ => false
  let afterDot := if hasDot then s1.tail else s1
  let fracPart := if hasDot then afterDot.takeWhile isDigitC else []
  let s2 := if hasDot then afterDot.dropWhile isDigitC else s1
  if intPart.isEmpty && fracPart.isEmpty then none
  else
    let mant : ℚ := (digitsToNat intPart : ℚ) +
      (digitsToNat fracPart : ℚ) / (10 : ℚ) ^ fracPart.length
    match s2 with
    | 'e' :: rest =>
        match rest with
        | '+' :: r =>
            if (r.takeWhile isDigitC).isEmpty then none
            else some (applyExp mant (digitsToNat (r.takeWhile isDigitC) : Int),
                       r.dropWhile isDigitC)
        | '-' :: r =>
            if (r.takeWhile isDigitC).isEmpty then none
            else some (applyExp mant (-(digitsToNat (r.takeWhile isDigitC) : Int)),
                       r.dropWhile isDigitC)
        | r =>
            if (r.takeWhile isDigitC).isEmpty then none
            else some (applyExp mant (digitsToNat (r.takeWhile isDigitC) : Int),
                       r.dropWhile isDigitC)
    | 'E' :: rest =>
        match rest with
        | '+' :: r =>
            if (r.takeWhile isDigitC).isEmpty then none
            else some (applyExp mant (digitsToNat (r.takeWhile isDigitC) : Int),
                       r.dropWhile isDigitC)
        | '-' :: r =>
            if (r.takeWhile isDigitC).isEmpty then none
            else some (applyExp mant (-(digitsToNat (r.takeWhile isDigitC) : Int)),
                       r.dropWhile isDigitC)
        | r =>
            if (r.takeWhile isDigitC).isEmpty then none
            else some (applyExp mant (digitsToNat (r.takeWhile isDigitC) : Int),
                       r.dropWhile isDigitC)
    | _ => some (mant, s2)

/-- Fueled lexer; every step consumes at least one character, so a fuel of
`length + 1` always suffices.  Any character outside the arithmetic fragment
is a syntax error. -/
def lexAux : Nat → List Char → Option (List Tok)
  | 0, _ => none
  | _ + 1, [] => some []
  | fuel + 1, c :: cs =>
    if c == ' ' || c == '\t' || c == '\n' || c == '\r' then lexAux fuel cs
    else if c == '+' then (lexAux fuel cs).map (fun ts => Tok.plus :: ts)
    else if c == '-' then (lexAux fuel cs).map (fun ts => Tok.minus :: ts)
    else if c == '*' then (lexAux fuel cs).map (fun ts => Tok.star :: ts)
    else if c == '/' then (lexAux fuel cs).map (fun ts => Tok.slash :: ts)
    else if c == '%' then (lexAux fuel cs).map (fun ts => Tok.percent :: ts)
    else if c == '(' then (lexAux fuel cs).map (fun ts => Tok.lparen :: ts)
    else if c == ')' then (lexAux fuel cs).map (fun ts => Tok.rparen :: ts)
    else if isDigitC c || c == '.' then
      match lexNum (c :: cs) with
      | some (q, rest) => (lexAux fuel rest).map (fun ts => Tok.num q :: ts)
      | none => none
    else none

/-- Tokenize a substituted formula. -/
def lexFormula (s : List Char) : Option (List Tok) := lexAux (s.length + 1) s

/-- Parser state: which grammar level is being parsed.  `exprTail`/`termTail`
carry the left-associative accumulator of the binary-operator folds. -/
inductive PMode where
  | expr
  | term
  | unary
  | exprTail (acc : JsNum)
  | termTail (acc : JsNum)

/-- Fueled recursive-descent parser/evaluator for the arithmetic grammar

    expr  := term (('+' | '-') term)*
    term  := unary (('*' | '/' | '%') unary)*
    unary := '+' unary | '-' unary | number | '(' expr ')'

with left-associative binary operators, evaluated over `JsNum`.  Structural
recursion on the fuel keeps it kernel-reducible. -/
def parseM : Nat → PMode → List Tok → Option (JsNum × List Tok)
  | 0, _, _ => none
  | fuel + 1, PMode.expr, ts =>
    match parseM fuel PMode.term ts with
    | none => none
    | some (v, rest) => parseM fuel (PMode.exprTail v) rest
  | fuel + 1, PMode.exprTail acc, Tok.plus :: ts =>
    match parseM fuel PMode.term ts with
    | none => none
    | some (v, rest) => parseM fuel (PMode.exprTail (acc.add v)) rest
  | fuel + 1, PMode.exprTail acc, Tok.minus :: ts =>
    match parseM fuel PMode.term ts with
    | none => none
    | some (v, rest) => parseM fuel (PMode.exprTail (acc.sub v)) rest
  | _ + 1, PMode.exprTail acc, ts => some (acc, ts)
  | fuel + 1, PMode.term, ts =>
    match parseM fuel PMode.unary ts with
    | none => none
    | some (v, rest) => parseM fuel (PMode.termTail v) rest
  | fuel + 1, PMode.termTail acc, Tok.star :: ts =>
    match parseM fuel PMode.unary ts with
    | none => none
    | some (v, rest) => parseM fuel (PMode.termTail (acc.mul v)) rest
  | fuel + 1, PMode.termTail acc, Tok.slash :: ts =>
    match parseM fuel PMode.unary ts with
    | none => none
    | some (v, rest) => parseM fuel (PMode.termTail (acc.div v)) rest
  | fuel + 1, PMode.termTail acc, Tok.percent :: ts =>
    match parseM fuel PMode.unary ts with
    | none => none
    | some (v, rest) => parseM fuel (PMode.termTail (acc.mod v)) rest
  | _ + 1, PMode.termTail acc, ts => some (acc, ts)
  | fuel + 1, PMode.unary, Tok.plus :: ts => parseM fuel PMode.unary ts
  | fuel + 1, PMode.unary, Tok.minus :: ts =>
    match parseM fuel PMode.unary ts with
    | none => none
    | some (v, rest) => some (v.neg, rest)
  | _ + 1, PMode.unary, Tok.num q :: ts => some (JsNum.num q, ts)
  | fuel + 1, PMode.unary, Tok.lparen :: ts =>
    match parseM fuel PMode.expr ts with
    | none => none
    | some (v, Tok.rparen :: rest) => some (v, rest)
    | some _ => none
  | _ + 1, PMode.unary, _ => none

/-- Model of `new Function("return " + text)()` on a substituted formula:
lex, parse and evaluate the arithmetic expression; `none` models a thrown
SyntaxError (or any other evaluation failure). -/
def jsEval (s : List Char) : Option JsNum :=
  match lexFormula s with
  | none => none
  | some ts =>
    match parseM (6 * ts.length + 6) PMode.expr ts with
    | some (v, []) => some v
    | _ => none

/-- Embedding of `evaluateFormula` (src/lib/formula-evaluator.ts).
`none` stands for an `undefined`/`null` formula; `!formula` is true exactly
for those and for the empty string.  After the substitution loop the
leftover-identifier check fires, then the host evaluates the text; a thrown
error is caught and becomes 0, and a NaN result (`isNaN(result)`) becomes 0,
while every other number — Infinity included — is returned as is. -/
def evaluateFormula (formula : Option String) (parameters : List Param) : JsNum :=
  match formula with
  | none => JsNum.num 0
  | some f =>
    if f = "" then JsNum.num 0
    else if hasLeftoverIdent (substAll f.data parameters) then JsNum.num 0
    else
      match jsEval (substAll f.data parameters) with
      | none => JsNum.num 0
      | some r => if r = JsNum.nan then JsNum.num 0 else r

example : evaluateFormula (some "length * width")
    [⟨"length", "5"⟩, ⟨"width", "3"⟩] = JsNum.num 15 := by with_unfolding_all decide

example : evaluateFormula (some "10 / x") [⟨"x", "0"⟩] = JsNum.inf := by with_unfolding_all decide

example : evaluateFormula (some "width * 2")
    [⟨"w", "9"⟩, ⟨"width", "5"⟩] = JsNum.num 10 := by with_unfolding_all decide

example : evaluateFormula (some "a + unknown") [⟨"a", "2"⟩] = JsNum.num 0 := by with_unfolding_all decide

/-! ## The create-proposal page component (src/unnamed/part_000 and the trades
tab).  The React state triple (selectedModules, selectedParameters,
selectedElements) is modelled by `PState`, and each handler by a pure state
transformer: the source's `setState` updaters all compute from the current
state, and execution is single-threaded and synchronous (spec §5). -/

/-- A module (a "trade"): `{ id, name, description }`. -/
structure Module where
  id : Nat
  name : String
  description : String
deriving DecidableEq

/-- An element definition: `{ id, name, description, formula, labor_formula }`;
the formula fields and the description may be null/undefined. -/
structure Element where
  id : Nat
  name : String
  description : Option String
  formula : Option String
  labor_formula : Option String
deriving DecidableEq

/-- A parameter as held in component state: `{ id, name, value, type }`;
`value` holds the textual form of the string-or-number value. -/
structure Parameter where
  id : Nat
  name : String
  value : String
  type : String
deriving DecidableEq

/-- The `{name, value}` view of a parameter that the component passes to
`evaluateFormula` (TS passes the same object; structural typing). -/
def Parameter.toParam (p : Parameter) : Param := ⟨p.name, p.value⟩

/-- A priced element instance (`ElementWithValues`): created on toggle-in or
template selection; `name` is only filled in by `calculateElementCosts`. -/
structure ElementWithValues where
  id : Nat
  element : Element
  module : Module
  formula : String
  labor_formula : String
  material_cost : JsNum
  labor_cost : JsNum
  markup : ℚ
  name : Option String
deriving DecidableEq

/-- An entry of a template's `template_elements` array. -/
structure TemplateElement where
  element : Element
  module : Module
  markup : ℚ
deriving DecidableEq

/-- A template record (the fields the selection handler reads; the list
fields may be null/undefined, defaulted with `|| []`). -/
structure Template where
  id : Nat
  modules : Option (List Module)
  parameters : Option (List Parameter)
  template_elements : Option (List TemplateElement)
deriving DecidableEq

/-- JS `maybeNull || ""` on an optional string. -/
def orEmpty : Option String → String
  | none => ""
  | some s => s

/-- JS `maybeNull || []` on an optional list. -/
def orEmptyList {α : Type} : Option (List α) → List α
  | none => []
  | some l => l

/-- JS `own || base || ""`: the instance's own formula string unless it is
empty, else the element definition's formula, else `""`. -/
def fallbackFormula (own : String) (base : Option String) : String :=
  if own = "" then orEmpty base else own

/-- The component state: the three `useState` lists the claims are about. -/
structure PState where
  selectedModules : List Module
  selectedParameters : List Parameter
  selectedElements : List ElementWithValues
deriving DecidableEq

/-- Embedding of `calculateElementCosts`: recompute every instance's
material and labor cost from its current formulas (with the
`el.formula || el.element.formula || ""` fallback) against the given
parameters, also filling `name` with `el.element.name || ""`. -/
def calculateElementCosts (elements : List ElementWithValues)
    (parameters : List Parameter) : List ElementWithValues :=
  elements.map fun el =>
    { el with
      name := some el.element.name
      material_cost := evaluateFormula (some (fallbackFormula el.formula el.element.formula))
        (parameters.map Parameter.toParam)
      labor_cost := evaluateFormula (some (fallbackFormula el.labor_formula el.element.labor_formula))
        (parameters.map Parameter.toParam) }

/-- Embedding of `handleTemplateSelect`: replace modules, parameters and
priced elements with the template's declared set; instance markup is
`templateElement.markup || 10`, and costs are computed fresh from the
template's own parameters. -/
def handleTemplateSelect (template : Template) (_st : PState) : PState :=
  let templateElements := orEmptyList template.template_elements
  let parametersList := orEmptyList template.parameters
  let elementsFromTemplate := templateElements.map fun te =>
    ElementWithValues.mk te.element.id te.element te.module
      (orEmpty te.element.formula) (orEmpty te.element.labor_formula)
      (JsNum.num 0) (JsNum.num 0)
      (if te.markup = 0 then 10 else te.markup) none
  { selectedModules := orEmptyList template.modules
    selectedParameters := parametersList
    selectedElements := calculateElementCosts elementsFromTemplate parametersList }

/-- Embedding of `handleModuleToggle`: deselecting a module also filters out
every priced element whose module has its id, in the same transition;
selecting appends the module and touches nothing else. -/
def handleModuleToggle (module : Module) (st : PState) : PState :=
  match st.selectedModules.find? (fun m => m.id == module.id) with
  | some _ =>
    { selectedModules := st.selectedModules.filter (fun m => m.id != module.id)
      selectedParameters := st.selectedParameters
      selectedElements := st.selectedElements.filter (fun e => e.module.id != module.id) }
  | none =>
    { st with selectedModules := st.selectedModules ++ [module] }

/-- Embedding of `handleElementToggle`: if an instance with the same
(element id, module id) pair exists, every such instance is filtered out;
otherwise a new instance is appended (`id: Date.now()` is modelled by the
explicit `freshId`), with costs evaluated against the current parameters and
markup 10. -/
def handleElementToggle (element : Element) (module : Module) (freshId : Nat)
    (st : PState) : PState :=
  match st.selectedElements.find?
      (fun e => e.element.id == element.id && e.module.id == module.id) with
  | some _ =>
    { st with selectedElements :=
        (st.selectedElements.filter
          (fun e => !(e.element.id == element.id && e.module.id == module.id))) }
  | none =>
    let safeElement := { element with description := some (orEmpty element.description) }
    let newFormula := orEmpty element.formula
    let newLabor := orEmpty element.labor_formula
    { st with selectedElements := st.selectedElements ++
        [ElementWithValues.mk freshId safeElement module newFormula newLabor
          (evaluateFormula (some newFormula) (st.selectedParameters.map Parameter.toParam))
          (evaluateFormula (some newLabor) (st.selectedParameters.map Parameter.toParam))
          10 none] }

/-- Embedding of `handleParameterValueUpdate`: write the new value into the
matching parameter and synchronously recompute all element costs with the
updated parameter list. -/
def handleParameterValueUpdate (parameterId : Nat) (value : String)
    (st : PState) : PState :=
  let newParameters := st.selectedParameters.map fun p =>
    if p.id = parameterId then { p with value := value } else p
  { selectedModules := st.selectedModules
    selectedParameters := newParameters
    selectedElements := calculateElementCosts st.selectedElements newParameters }

/-- Embedding of `handleParameterToggle`: add or remove the parameter by id
and recompute all element costs with the new parameter list. -/
def handleParameterToggle (parameter : Parameter) (st : PState) : PState :=
  let newParameters :=
    if (st.selectedParameters.find? (fun p => p.id == parameter.id)).isSome then
      st.selectedParameters.filter (fun p => p.id != parameter.id)
    else st.selectedParameters ++ [parameter]
  { selectedModules := st.selectedModules
    selectedParameters := newParameters
    selectedElements := calculateElementCosts st.selectedElements newParameters }

/-- The `field` argument of `handleElementValueUpdate`. -/
inductive UpdateField where
  | formulaField
  | laborFormulaField
  | markupField
deriving DecidableEq

/-- Embedding of `handleElementValueUpdate`: update the named field of the
matching (element id, module id) instance — for the two formula fields the
new formula string is written (the numeric `value` spread is overwritten by
the trailing spread in the source) and all costs are recomputed; for
`markup` only the markup value is written. -/
def handleElementValueUpdate (elementId : Nat) (module : Module)
    (field : UpdateField) (formula : String) (value : ℚ) (st : PState) : PState :=
  let newElements := st.selectedElements.map fun e =>
    if e.element.id = elementId ∧ e.module.id = module.id then
      match field with
      | UpdateField.formulaField => { e with formula := formula }
      | UpdateField.laborFormulaField => { e with labor_formula := formula }
      | UpdateField.markupField => { e with markup := value }
    else e
  if field = UpdateField.formulaField ∨ field = UpdateField.laborFormulaField then
    { st with selectedElements := calculateElementCosts newElements st.selectedParameters }
  else
    { st with selectedElements := newElements }

/-- Embedding of `calculateTotalCost` (trades tab): fold over the selected
elements, each contributing `(material + labor) * (1 + markup / 100)` where
the markup is the global percentage when the global override is on and
otherwise `element.markup || 10` (a falsy — zero — markup falls back to 10).
The `typeof x === "number"` guards are identities here because every stored
cost is a JS number (Infinity and NaN included). -/
def totalStep (useGlobalMarkup : Bool) (globalMarkup : ℚ)
    (total : JsNum) (element : ElementWithValues) : JsNum :=
  total.add ((element.material_cost.add element.labor_cost).mul
    (JsNum.num (1 + (if useGlobalMarkup then globalMarkup
      else if element.markup = 0 then 10 else element.markup) / 100)))

/-- The reducer itself, folded from 0 over the selected elements. -/
def calculateTotalCost (selectedElements : List ElementWithValues)
    (useGlobalMarkup : Bool) (globalMarkup : ℚ) : JsNum :=
  selectedElements.foldl (totalStep useGlobalMarkup globalMarkup) (JsNum.num 0)

/-- The state-mutating operations the invariant claims quantify over. -/
inductive Op where
  | paramValueUpdate (parameterId : Nat) (value : String)
  | paramToggle (parameter : Parameter)
  | elementUpdate (elementId : Nat) (module : Module) (field : UpdateField)
      (formula : String) (value : ℚ)
  | elementToggle (element : Element) (module : Module) (freshId : Nat)
  | moduleToggle (module : Module)
  | templateSelect (template : Template)

/-- Dispatch an operation to its handler. -/
def applyOp : Op → PState → PState
  | Op.paramValueUpdate pid v, st => handleParameterValueUpdate pid v st
  | Op.paramToggle p, st => handleParameterToggle p st
  | Op.elementUpdate eid m f s v, st => handleElementValueUpdate eid m f s v st
  | Op.elementToggle e m fid, st => handleElementToggle e m fid st
  | Op.moduleToggle m, st => handleModuleToggle m st
  | Op.templateSelect t, st => handleTemplateSelect t st

/-! ## Helper lemmas about the evaluator -/

/-- Substituting into the empty string leaves it empty. -/
lemma substParam_nil (p : Param) : substParam [] p = [] := by
  unfold substParam
  split
  · rename_i hw
    have hne : p.name.data ≠ [] := by
      intro h
      rw [isWordName, h] at hw
      simp at hw
    unfold replaceTokens replaceTokensAux flushRun
    simp [Ne.symm hne]
  · rfl

/-- The substitution loop leaves the empty string empty. -/
lemma substAll_nil (P : List Param) : substAll [] P = [] := by
  induction P with
  | nil => rfl
  | cons p ps ih =>
      unfold substAll at ih ⊢
      rw [List.foldl_cons, substParam_nil]
      exact ih

/-- Core evaluation lemma: when the substituted text passes the
leftover-identifier check and the host evaluation returns `r`, the evaluator
returns `r` unless `r` is NaN, which becomes 0. -/
lemma evaluateFormula_eval (f : String) (P : List Param) (r : JsNum)
    (h1 : hasLeftoverIdent (substAll f.data P) = false)
    (h2 : jsEval (substAll f.data P) = some r) :
    evaluateFormula (some f) P = if r = JsNum.nan then JsNum.num 0 else r := by
  by_cases hf : f = ""
  · subst hf
    rw [show ("" : String).data = [] from rfl, substAll_nil] at h2
    rw [show jsEval [] = none from rfl] at h2
    cases h2
  · simp only [evaluateFormula]
    rw [if_neg hf, h1]
    simp only [Bool.false_eq_true, if_false]
    rw [h2]

/-! ## C1 -/

/-- C1 (counterexample): the claim says a non-finite evaluation result — for
example `evaluateFormula("10 / x", [{name:"x",value:0}])`, whose substituted
text `10 / 0` evaluates to Infinity — is returned as 0; in fact the code only
converts NaN to 0 (`isNaN(result) ? 0 : Number(result)`), so this call
returns Infinity, not 0. -/
theorem evaluateFormula_divzero_returns_infinity :
    evaluateFormula (some "10 / x") [⟨"x", "0"⟩] = JsNum.inf ∧
      evaluateFormula (some "10 / x") [⟨"x", "0"⟩] ≠ JsNum.num 0 := by
  with_unfolding_all decide

/-- C1 (amended): when the substituted, fully-numeric text of the formula
evaluates to a number `r`, the evaluator returns 0 when `r` is NaN and
returns `r` unchanged otherwise — in particular a non-finite, non-NaN result
such as the Infinity produced by dividing a nonzero number by zero is
returned as Infinity, not 0. -/
theorem evaluateFormula_nan_to_zero (f : String) (P : List Param) (r : JsNum)
    (h1 : hasLeftoverIdent (substAll f.data P) = false)
    (h2 : jsEval (substAll f.data P) = some r) :
    evaluateFormula (some f) P = if r = JsNum.nan then JsNum.num 0 else r :=
  evaluateFormula_eval f P r h1 h2

/-- Witness for C1's amended theorem at the concrete division-by-zero input:
both hypotheses hold there and the returned value is Infinity. -/
theorem evaluateFormula_nan_to_zero_witness :
    hasLeftoverIdent (substAll "10 / x".data [⟨"x", "0"⟩]) = false ∧
      jsEval (substAll "10 / x".data [⟨"x", "0"⟩]) = some JsNum.inf ∧
      evaluateFormula (some "10 / x") [⟨"x", "0"⟩] = JsNum.inf :=
  ⟨by with_unfolding_all decide, by with_unfolding_all decide,
    (evaluateFormula_nan_to_zero "10 / x" [⟨"x", "0"⟩] JsNum.inf
      (by with_unfolding_all decide) (by with_unfolding_all decide)).trans
      (by with_unfolding_all decide)⟩

/-! ## C3 -/

/-- C3: for a parameter set with numeric values and a formula whose
identifier-like tokens are all resolved by the substitution (nothing is left
over), the evaluator returns exactly the arithmetic value of the substituted
expression: if the substituted text evaluates exactly to the rational `q`,
`evaluateFormula` returns `q`. -/
theorem evaluateFormula_exact_arithmetic (f : String) (P : List Param) (q : ℚ)
    (h1 : hasLeftoverIdent (substAll f.data P) = false)
    (h2 : jsEval (substAll f.data P) = some (JsNum.num q)) :
    evaluateFormula (some f) P = JsNum.num q :=
  (evaluateFormula_eval f P (JsNum.num q) h1 h2).trans (by simp)

/-- Witness for C3 at the spec's example: `length * width` with
`length = 5`, `width = 3` substitutes to `5 * 3`, evaluates exactly to 15,
and `evaluateFormula` returns 15. -/
theorem evaluateFormula_exact_arithmetic_witness :
    hasLeftoverIdent (substAll "length * width".data
        [⟨"length", "5"⟩, ⟨"width", "3"⟩]) = false ∧
      jsEval (substAll "length * width".data [⟨"length", "5"⟩, ⟨"width", "3"⟩])
        = some (JsNum.num 15) ∧
      evaluateFormula (some "length * width") [⟨"length", "5"⟩, ⟨"width", "3"⟩]
        = JsNum.num 15 :=
  ⟨by with_unfolding_all decide, by with_unfolding_all decide,
    evaluateFormula_exact_arithmetic "length * width" [⟨"length", "5"⟩, ⟨"width", "3"⟩]
      15 (by with_unfolding_all decide) (by with_unfolding_all decide)⟩

/-! ## C4 -/

/-- C4: when, after substituting all parameters, the remaining text still
contains an identifier-like token (the formula references a name absent from
the parameter set), the evaluator returns 0 — it neither throws nor
partially evaluates, the branch returns the number 0 outright. -/
theorem evaluateFormula_unknown_param_zero (f : String) (P : List Param)
    (h : hasLeftoverIdent (substAll f.data P) = true) :
    evaluateFormula (some f) P = JsNum.num 0 := by
  simp only [evaluateFormula]
  by_cases hf : f = ""
  · rw [if_pos hf]
  · rw [if_neg hf, h]
    simp

/-- Witness for C4 at the spec's example: `a + unknown` with only `a = 2`
leaves the token `unknown` after substitution and evaluates to 0. -/
theorem evaluateFormula_unknown_param_zero_witness :
    hasLeftoverIdent (substAll "a + unknown".data [⟨"a", "2"⟩]) = true ∧
      evaluateFormula (some "a + unknown") [⟨"a", "2"⟩] = JsNum.num 0 :=
  ⟨by with_unfolding_all decide,
    evaluateFormula_unknown_param_zero "a + unknown" [⟨"a", "2"⟩]
      (by with_unfolding_all decide)⟩

/-! ## C6 -/

/-- C6: the evaluator is total and exception-free — a null/undefined formula
and the empty formula return 0, and any runtime failure of the host
evaluation (modelled by `jsEval` returning `none`) is caught and converted
to a 0 return; by construction the function always returns a `JsNum` and
never raises to its caller. -/
theorem evaluateFormula_total_never_throws (P : List Param) :
    evaluateFormula none P = JsNum.num 0 ∧
      evaluateFormula (some "") P = JsNum.num 0 ∧
      ∀ f : String, jsEval (substAll f.data P) = none →
        evaluateFormula (some f) P = JsNum.num 0 := by
  refine ⟨rfl, by simp [evaluateFormula], ?_⟩
  intro f h
  simp only [evaluateFormula]
  by_cases hf : f = ""
  · rw [if_pos hf]
  · rw [if_neg hf]
    by_cases hl : hasLeftoverIdent (substAll f.data P) = true
    · rw [hl]
      simp
    · rw [Bool.not_eq_true] at hl
      rw [hl]
      simp only [Bool.false_eq_true, if_false]
      rw [h]

/-- Witness for C6 at a malformed formula: `2 +` lexes but fails to parse,
so the caught failure yields 0; the null and empty cases are evaluated
directly. -/
theorem evaluateFormula_total_never_throws_witness :
    jsEval (substAll "2 +".data []) = none ∧
      evaluateFormula (some "2 +") [] = JsNum.num 0 ∧
      evaluateFormula none [] = JsNum.num 0 :=
  ⟨by with_unfolding_all decide,
    (evaluateFormula_total_never_throws []).2.2 "2 +" (by with_unfolding_all decide),
    (evaluateFormula_total_never_throws []).1⟩

/-! ## C2 -/

/-- Per-element sell price as the aggregation spec describes it, with the
code's falsy-markup behaviour made explicit: when the global override is off
a markup of exactly 0 falls back to the default 10 (`element.markup || 10`). -/
def elementTotalAmended (useGlobalMarkup : Bool) (globalMarkup : ℚ)
    (e : ElementWithValues) : ℚ :=
  (e.material_cost.finPart + e.labor_cost.finPart) *
    (1 + (if useGlobalMarkup then globalMarkup
      else if e.markup = 0 then 10 else e.markup) / 100)

/-- The fold underlying `calculateTotalCost`, computed in closed form over
elements with finite costs. -/
lemma totalStep_foldl (u : Bool) (g : ℚ) :
    ∀ (l : List ElementWithValues) (a : ℚ),
      (∀ e ∈ l, e.material_cost.isFinite = true ∧ e.labor_cost.isFinite = true) →
      l.foldl (totalStep u g) (JsNum.num a)
        = JsNum.num (a + (l.map (elementTotalAmended u g)).sum) := by
  intro l
  induction l with
  | nil => intro a _; simp
  | cons e l ih =>
      intro a h
      have he := h e (by simp)
      have hrest : ∀ x ∈ l, x.material_cost.isFinite = true ∧ x.labor_cost.isFinite = true :=
        fun x hx => h x (by simp [hx])
      cases hmc : e.material_cost with
      | num m =>
          cases hlc : e.labor_cost with
          | num lab =>
              rw [List.foldl_cons]
              have hstep : totalStep u g (JsNum.num a) e
                  = JsNum.num (a + elementTotalAmended u g e) := by
                simp [totalStep, hmc, hlc, JsNum.add, JsNum.mul, elementTotalAmended,
                  JsNum.finPart]
              rw [hstep, ih _ hrest]
              congr 1
              simp [add_assoc]
          | inf => rw [hlc] at he; simp [JsNum.isFinite] at he
          | negInf => rw [hlc] at he; simp [JsNum.isFinite] at he
          | nan => rw [hlc] at he; simp [JsNum.isFinite] at he
      | inf => rw [hmc] at he; simp [JsNum.isFinite] at he
      | negInf => rw [hmc] at he; simp [JsNum.isFinite] at he
      | nan => rw [hmc] at he; simp [JsNum.isFinite] at he

/-- A priced element with numeric costs (100 material, 0 labor) and its own
markup equal to 0, used to exhibit the falsy-markup fallback. -/
def zeroMarkupElement : ElementWithValues :=
  ElementWithValues.mk 12 (Element.mk 3 "e3" none none none) (Module.mk 2 "B" "")
    "" "" (JsNum.num 100) (JsNum.num 0) 0 none

/-- C2 (counterexample): the claim computes the grand total with
`effectiveMarkup = element.markup` when the global override is off, which at
markup 0 predicts `(100 + 0) * (1 + 0/100) = 100`; the code computes
`element.markup || 10`, so the actual grand total is 110. -/
theorem calculateTotalCost_zero_markup_counterexample :
    calculateTotalCost [zeroMarkupElement] false 15 = JsNum.num 110 ∧
      calculateTotalCost [zeroMarkupElement] false 15
        ≠ JsNum.num ((100 + 0) * (1 + 0 / 100)) := by
  with_unfolding_all decide

/-- C2 (amended): for priced elements with numeric (finite) costs, the grand
total equals the sum over all elements of
`(material + labor) * (1 + effectiveMarkup/100)`, where the effective markup
is the global percentage when the override is enabled — the individual markup
fields are then ignored — and otherwise the element's own markup when it is
nonzero and the default 10 when the element's markup is 0. -/
theorem calculateTotalCost_spec (l : List ElementWithValues) (u : Bool) (g : ℚ)
    (h : ∀ e ∈ l, e.material_cost.isFinite = true ∧ e.labor_cost.isFinite = true) :
    calculateTotalCost l u g = JsNum.num ((l.map (elementTotalAmended u g)).sum) := by
  unfold calculateTotalCost
  simpa using totalStep_foldl u g l 0 h

/-- First element of the spec's aggregation example: material 100, labor 50,
markup 10. -/
def specElement1 : ElementWithValues :=
  ElementWithValues.mk 10 (Element.mk 1 "e1" none none none) (Module.mk 1 "A" "")
    "" "" (JsNum.num 100) (JsNum.num 50) 10 none

/-- Second element of the spec's aggregation example: material 200, labor 0,
markup 20. -/
def specElement2 : ElementWithValues :=
  ElementWithValues.mk 11 (Element.mk 2 "e2" none none none) (Module.mk 1 "A" "")
    "" "" (JsNum.num 200) (JsNum.num 0) 20 none

/-- Witness for C2's amended theorem at the spec's example: with the global
override off the grand total is 165 + 240 = 405, and with the override on at
15% every element uses 15%, giving 172.5 + 230 = 402.5. -/
theorem calculateTotalCost_spec_witness :
    calculateTotalCost [specElement1, specElement2] false 10 = JsNum.num 405 ∧
      calculateTotalCost [specElement1, specElement2] true 15 = JsNum.num (805 / 2) :=
  ⟨(calculateTotalCost_spec [specElement1, specElement2] false 10
      (by with_unfolding_all decide)).trans (by with_unfolding_all decide),
    (calculateTotalCost_spec [specElement1, specElement2] true 15
      (by with_unfolding_all decide)).trans (by with_unfolding_all decide)⟩

/-! ## C8 -/

/-- C8: deselecting a module that is in the selection removes, in the same
transition, exactly that module and exactly the priced elements whose module
reference carries its id — an element survives iff it was selected and
belongs to a different module, a module survives iff it has a different id —
and the parameters are untouched. -/
theorem handleModuleToggle_deselect (module : Module) (st : PState)
    (h : ∃ m ∈ st.selectedModules, m.id = module.id) :
    (handleModuleToggle module st).selectedElements
        = st.selectedElements.filter (fun e => e.module.id != module.id) ∧
      (∀ e : ElementWithValues, e ∈ (handleModuleToggle module st).selectedElements ↔
        e ∈ st.selectedElements ∧ e.module.id ≠ module.id) ∧
      (∀ m : Module, m ∈ (handleModuleToggle module st).selectedModules ↔
        m ∈ st.selectedModules ∧ m.id ≠ module.id) ∧
      (handleModuleToggle module st).selectedParameters = st.selectedParameters := by
  obtain ⟨m, hm, hid⟩ := h
  have hfind : (st.selectedModules.find? (fun m => m.id == module.id)).isSome := by
    rw [List.find?_isSome]
    exact ⟨m, hm, by simp [hid]⟩
  cases hf : st.selectedModules.find? (fun m => m.id == module.id) with
  | none => rw [hf] at hfind; simp at hfind
  | some m' =>
      unfold handleModuleToggle
      rw [hf]
      refine ⟨rfl, ?_, ?_, rfl⟩
      · intro e
        simp [List.mem_filter]
      · intro mm
        simp [List.mem_filter]

/-- Module A of the removal example. -/
def moduleA : Module := Module.mk 1 "A" ""

/-- Module B of the removal example. -/
def moduleB : Module := Module.mk 2 "B" ""

/-- First priced element of module A in the removal example. -/
def elementA1 : ElementWithValues :=
  ElementWithValues.mk 20 (Element.mk 1 "a1" none none none) moduleA
    "" "" (JsNum.num 1) (JsNum.num 0) 10 none

/-- Second priced element of module A in the removal example. -/
def elementA2 : ElementWithValues :=
  ElementWithValues.mk 21 (Element.mk 2 "a2" none none none) moduleA
    "" "" (JsNum.num 2) (JsNum.num 0) 10 none

/-- The priced element of module B in the removal example. -/
def elementB1 : ElementWithValues :=
  ElementWithValues.mk 22 (Element.mk 3 "b1" none none none) moduleB
    "" "" (JsNum.num 3) (JsNum.num 0) 10 none

/-- State with modules A (two elements) and B (one element) selected. -/
def stateAB : PState :=
  PState.mk [moduleA, moduleB] [] [elementA1, elementA2, elementB1]

/-- Witness for C8 at the claim's example: deselecting A from a selection
with modules A (2 elements) and B (1 element) leaves exactly B's element. -/
theorem handleModuleToggle_deselect_witness :
    (∃ m ∈ stateAB.selectedModules, m.id = moduleA.id) ∧
      (handleModuleToggle moduleA stateAB).selectedElements = [elementB1] :=
  ⟨⟨moduleA, by with_unfolding_all decide, rfl⟩,
    ((handleModuleToggle_deselect moduleA stateAB
        ⟨moduleA, by with_unfolding_all decide, rfl⟩).1).trans
      (by with_unfolding_all decide)⟩

/-! ## C10 -/

/-- C10: from any state in which the (element id, module id) pair is not yet
selected, toggling the pair on and then off restores the prior list of
priced elements exactly — the off-toggle removes exactly the instance the
on-toggle appended — and with it the prior grand total, for every global
markup setting. -/
theorem handleElementToggle_roundtrip (element : Element) (module : Module)
    (fid1 fid2 : Nat) (st : PState) (u : Bool) (g : ℚ)
    (h : ∀ e ∈ st.selectedElements,
      ¬(e.element.id = element.id ∧ e.module.id = module.id)) :
    (handleElementToggle element module fid2
        (handleElementToggle element module fid1 st)).selectedElements
      = st.selectedElements ∧
    calculateTotalCost (handleElementToggle element module fid2
        (handleElementToggle element module fid1 st)).selectedElements u g
      = calculateTotalCost st.selectedElements u g := by
  have hpred : ∀ e ∈ st.selectedElements,
      ¬((fun e : ElementWithValues =>
        e.element.id == element.id && e.module.id == module.id) e = true) := by
    intro e he
    simpa using h e he
  have hfind1 : st.selectedElements.find?
      (fun e => e.element.id == element.id && e.module.id == module.id) = none :=
    List.find?_eq_none.mpr hpred
  have h1 : handleElementToggle element module fid1 st
      = { st with selectedElements := st.selectedElements ++
          [ElementWithValues.mk fid1
            { element with description := some (orEmpty element.description) } module
            (orEmpty element.formula) (orEmpty element.labor_formula)
            (evaluateFormula (some (orEmpty element.formula))
              (st.selectedParameters.map Parameter.toParam))
            (evaluateFormula (some (orEmpty element.labor_formula))
              (st.selectedParameters.map Parameter.toParam))
            10 none] } := by
    unfold handleElementToggle
    rw [hfind1]
  set newEl : ElementWithValues := ElementWithValues.mk fid1
      { element with description := some (orEmpty element.description) } module
      (orEmpty element.formula) (orEmpty element.labor_formula)
      (evaluateFormula (some (orEmpty element.formula))
        (st.selectedParameters.map Parameter.toParam))
      (evaluateFormula (some (orEmpty element.labor_formula))
        (st.selectedParameters.map Parameter.toParam))
      10 none with hnew
  have hprednew : (fun e : ElementWithValues =>
      e.element.id == element.id && e.module.id == module.id) newEl = true := by
    rw [hnew]
    simp
  have hfind2 : ((st.selectedElements ++ [newEl]).find?
      (fun e => e.element.id == element.id && e.module.id == module.id)).isSome := by
    rw [List.find?_isSome]
    exact ⟨newEl, by simp, hprednew⟩
  have helems : (handleElementToggle element module fid2
      (handleElementToggle element module fid1 st)).selectedElements
      = st.selectedElements := by
    rw [h1]
    cases hf : (st.selectedElements ++ [newEl]).find?
        (fun e => e.element.id == element.id && e.module.id == module.id) with
    | none => rw [hf] at hfind2; simp at hfind2
    | some w =>
        unfold handleElementToggle
        simp only []
        rw [hf]
        simp only [List.filter_append]
        rw [List.filter_eq_self.mpr (fun a ha => by
          have := hpred a ha
          simp only [Bool.and_eq_true, beq_iff_eq, not_and] at this
          simp [this, imp_iff_not_or] at this ⊢
          tauto)]
        have : [newEl].filter (fun e : ElementWithValues =>
            !(e.element.id == element.id && e.module.id == module.id)) = [] := by
          simp [List.filter, hprednew]
        rw [this, List.append_nil]
  exact ⟨helems, by rw [helems]⟩

/-- A selection whose only priced element belongs to module B, with one
numeric parameter `x = 3`; the (element 1, module A) pair is not selected. -/
def stateB : PState :=
  PState.mk [moduleB] [Parameter.mk 5 "x" "3" "number"] [elementB1]

/-- The element definition toggled in the round-trip example; its material
formula is `2 + 3`. -/
def elementDef1 : Element := Element.mk 1 "e1" none (some "2 + 3") none

/-- Witness for C10: toggling (element 1, module A) on and then off from
`stateB` restores its single-element selection and its grand total. -/
theorem handleElementToggle_roundtrip_witness :
    (∀ e ∈ stateB.selectedElements,
        ¬(e.element.id = elementDef1.id ∧ e.module.id = moduleA.id)) ∧
      (handleElementToggle elementDef1 moduleA 98
        (handleElementToggle elementDef1 moduleA 99 stateB)).selectedElements
        = [elementB1] :=
  ⟨by with_unfolding_all decide,
    ((handleElementToggle_roundtrip elementDef1 moduleA 99 98 stateB false 10
        (by with_unfolding_all decide)).1).trans (by with_unfolding_all decide)⟩

/-! ## C7 -/

/-- The no-stale-cache invariant: every priced element's stored material and
labor cost equal the evaluator's output for its current formulas (with the
`el.formula || el.element.formula || ""` fallback) against the current full
parameter set. -/
def costsInSync (st : PState) : Prop :=
  ∀ e ∈ st.selectedElements,
    e.material_cost = evaluateFormula (some (fallbackFormula e.formula e.element.formula))
        (st.selectedParameters.map Parameter.toParam) ∧
      e.labor_cost = evaluateFormula
        (some (fallbackFormula e.labor_formula e.element.labor_formula))
        (st.selectedParameters.map Parameter.toParam)

instance (st : PState) : Decidable (costsInSync st) := by
  unfold costsInSync
  infer_instance

/-- `calculateElementCosts` establishes the invariant outright: every cost
it writes is the evaluator's output for the element's fallback formula
against the same parameter list that becomes the state's parameter set. -/
lemma costsInSync_calc (mods : List Module) (ps : List Parameter)
    (xs : List ElementWithValues) :
    costsInSync (PState.mk mods ps (calculateElementCosts xs ps)) := by
  intro e he
  simp only [calculateElementCosts, List.mem_map] at he
  obtain ⟨el, _, rfl⟩ := he
  exact ⟨rfl, rfl⟩

/-- For the freshly created instance of a toggle-in, whose own formula field
is `element.formula || ""`, the fallback lookup returns that same string. -/
lemma fallbackFormula_orEmpty (f : Option String) :
    fallbackFormula (orEmpty f) f = orEmpty f := by
  cases f with
  | none => simp [fallbackFormula, orEmpty]
  | some s => by_cases hs : s = "" <;> simp [fallbackFormula, orEmpty, hs]

/-- Cost-irrelevant element rewrites preserve the invariant. -/
lemma costsInSync_map_preserve (st : PState) (h : costsInSync st)
    (g : ElementWithValues → ElementWithValues)
    (hg : ∀ e, (g e).material_cost = e.material_cost ∧ (g e).labor_cost = e.labor_cost ∧
      (g e).formula = e.formula ∧ (g e).labor_formula = e.labor_formula ∧
      (g e).element = e.element) :
    costsInSync (PState.mk st.selectedModules st.selectedParameters
      (st.selectedElements.map g)) := by
  intro e he
  simp only [List.mem_map] at he
  obtain ⟨el, hel, rfl⟩ := he
  obtain ⟨h1, h2, h3, h4, h5⟩ := hg el
  rw [h1, h2, h3, h4, h5]
  exact h el hel

/-- C7: every state-mutating operation (parameter value update, parameter
toggle, formula edit, markup edit, element toggle, module toggle, template
selection) preserves the no-stale-cache invariant — the recomputing handlers
establish it outright, and the others leave every cost-relevant field and
the parameter set untouched on the surviving elements. -/
theorem costsInSync_applyOp (op : Op) (st : PState) (h : costsInSync st) :
    costsInSync (applyOp op st) := by
  cases op with
  | paramValueUpdate pid v => exact costsInSync_calc _ _ _
  | paramToggle p => exact costsInSync_calc _ _ _
  | templateSelect t => exact costsInSync_calc _ _ _
  | elementUpdate eid m f s v =>
      cases f with
      | formulaField => exact costsInSync_calc _ _ _
      | laborFormulaField => exact costsInSync_calc _ _ _
      | markupField =>
          refine costsInSync_map_preserve st h _ (fun e => ?_)
          by_cases hm : e.element.id = eid ∧ e.module.id = m.id <;>
            simp [hm]
  | elementToggle e m fid =>
      cases hf : st.selectedElements.find?
          (fun x => x.element.id == e.id && x.module.id == m.id) with
      | some w =>
          simp only [applyOp, handleElementToggle]
          rw [hf]
          intro x hx
          simp only [List.mem_filter] at hx
          exact h x hx.1
      | none =>
          simp only [applyOp, handleElementToggle]
          rw [hf]
          intro x hx
          simp only [List.mem_append, List.mem_singleton] at hx
          cases hx with
          | inl hold => exact h x hold
          | inr hnew =>
              subst hnew
              constructor
              · rw [show (ElementWithValues.mk fid
                  { e with description := some (orEmpty e.description) } m
                  (orEmpty e.formula) (orEmpty e.labor_formula) _ _ 10 none).formula
                  = orEmpty e.formula from rfl]
                rw [show ({ e with description := some (orEmpty e.description) }
                  : Element).formula = e.formula from rfl]
                rw [fallbackFormula_orEmpty]
              · rw [show ({ e with description := some (orEmpty e.description) }
                  : Element).labor_formula = e.labor_formula from rfl]
                rw [show (ElementWithValues.mk fid
                  { e with description := some (orEmpty e.description) } m
                  (orEmpty e.formula) (orEmpty e.labor_formula) _ _ 10 none).labor_formula
                  = orEmpty e.labor_formula from rfl]
                rw [fallbackFormula_orEmpty]
  | moduleToggle m =>
      cases hf : st.selectedModules.find? (fun x => x.id == m.id) with
      | some w =>
          simp only [applyOp, handleModuleToggle]
          rw [hf]
          intro x hx
          simp only [List.mem_filter] at hx
          exact h x hx.1
      | none =>
          simp only [applyOp, handleModuleToggle]
          rw [hf]
          intro x hx
          exact h x hx

/-- A selection that satisfies the invariant: its single priced element
stores exactly the evaluator's output (5) for its formula `2 + 3`. -/
def stateSync : PState :=
  PState.mk [moduleA] []
    [ElementWithValues.mk 99 elementDef1 moduleA "2 + 3" ""
      (JsNum.num 5) (JsNum.num 0) 10 none]

/-- Witness for C7: `stateSync` satisfies the invariant, and a markup edit —
the one operation that recomputes nothing — preserves it. -/
theorem costsInSync_applyOp_witness :
    costsInSync stateSync ∧
      costsInSync (applyOp
        (Op.elementUpdate 1 moduleA UpdateField.markupField "" 25) stateSync) :=
  ⟨by with_unfolding_all decide,
    costsInSync_applyOp _ _ (by with_unfolding_all decide)⟩

/-! ## C9 -/

/-- Two priced elements do not collide on the (element id, module id) pair. -/
def distinctPair (a b : ElementWithValues) : Prop :=
  ¬(a.element.id = b.element.id ∧ a.module.id = b.module.id)

instance : DecidableRel distinctPair := fun a b => by
  unfold distinctPair
  infer_instance

/-- The uniqueness invariant: no two priced elements in the selection share
the same (element id, module id) pair. -/
def uniquePairs (l : List ElementWithValues) : Prop := l.Pairwise distinctPair

instance (l : List ElementWithValues) : Decidable (uniquePairs l) := by
  unfold uniquePairs
  infer_instance

/-- A template's own `template_elements` list carries pairwise-distinct
(element id, module id) pairs. -/
def templatePairsUnique (t : Template) : Prop :=
  (orEmptyList t.template_elements).Pairwise
    (fun a b => ¬(a.element.id = b.element.id ∧ a.module.id = b.module.id))

/-- A template whose element list repeats the (element 1, module A) pair. -/
def duplicateTemplate : Template :=
  Template.mk 7 (some [moduleA]) (some [])
    (some [TemplateElement.mk (Element.mk 1 "e1" none none none) moduleA 10,
      TemplateElement.mk (Element.mk 1 "e1" none none none) moduleA 10])

/-- C9 (counterexample): template selection is one of the operations the
claim covers, yet selecting a template whose `template_elements` list itself
repeats an (element id, module id) pair yields a selection in which two
priced elements share that pair — the handler copies the list verbatim and
never deduplicates. -/
theorem handleTemplateSelect_duplicate_counterexample :
    ¬ uniquePairs (handleTemplateSelect duplicateTemplate
      (PState.mk [] [] [])).selectedElements := by
  with_unfolding_all decide

/-- C9 (amended): element toggles, module toggles and the recomputing
updates preserve the (element id, module id) uniqueness invariant, and
template selection establishes it provided the selected template's own
`template_elements` list carries pairwise-distinct pairs; a template that
repeats a pair produces a selection that violates the invariant. -/
theorem uniquePairs_applyOp (op : Op) (st : PState)
    (h1 : uniquePairs st.selectedElements)
    (h2 : ∀ t, op = Op.templateSelect t → templatePairsUnique t) :
    uniquePairs (applyOp op st).selectedElements := by
  have hmap : ∀ (l : List ElementWithValues) (g : ElementWithValues → ElementWithValues),
      (∀ e, (g e).element.id = e.element.id ∧ (g e).module.id = e.module.id) →
      uniquePairs l → uniquePairs (l.map g) := by
    intro l g hg hl
    refine List.Pairwise.map _ (fun a b hab => ?_) hl
    unfold distinctPair at hab ⊢
    rw [(hg a).1, (hg a).2, (hg b).1, (hg b).2]
    exact hab
  cases op with
  | paramValueUpdate pid v =>
      exact hmap _ _ (fun e => ⟨rfl, rfl⟩) h1
  | paramToggle p =>
      exact hmap _ _ (fun e => ⟨rfl, rfl⟩) h1
  | elementUpdate eid m f s v =>
      cases f with
      | formulaField =>
          exact hmap _ _ (fun e => ⟨rfl, rfl⟩)
            (hmap _ _ (fun e => by
              by_cases hm : e.element.id = eid ∧ e.module.id = m.id <;>
                simp [hm]) h1)
      | laborFormulaField =>
          exact hmap _ _ (fun e => ⟨rfl, rfl⟩)
            (hmap _ _ (fun e => by
              by_cases hm : e.element.id = eid ∧ e.module.id = m.id <;>
                simp [hm]) h1)
      | markupField =>
          exact hmap _ _ (fun e => by
            by_cases hm : e.element.id = eid ∧ e.module.id = m.id <;>
              simp [hm]) h1
  | elementToggle e m fid =>
      cases hf : st.selectedElements.find?
          (fun x => x.element.id == e.id && x.module.id == m.id) with
      | some w =>
          simp only [applyOp, handleElementToggle]
          rw [hf]
          exact h1.filter _
      | none =>
          simp only [applyOp, handleElementToggle]
          rw [hf]
          unfold uniquePairs
          rw [List.pairwise_append]
          refine ⟨h1, List.pairwise_singleton _ _, ?_⟩
          intro a ha b hb
          rw [List.mem_singleton] at hb
          subst hb
          have := List.find?_eq_none.mp hf a ha
          simp only [Bool.and_eq_true, beq_iff_eq, not_and] at this
          intro hcontra
          obtain ⟨hc1, hc2⟩ := hcontra
          exact absurd hc2 (this (by simpa using hc1))
  | moduleToggle m =>
      cases hf : st.selectedModules.find? (fun x => x.id == m.id) with
      | some w =>
          simp only [applyOp, handleModuleToggle]
          rw [hf]
          exact h1.filter _
      | none =>
          simp only [applyOp, handleModuleToggle]
          rw [hf]
          exact h1
  | templateSelect t =>
      have ht := h2 t rfl
      exact hmap _ _ (fun e => ⟨rfl, rfl⟩)
        (List.Pairwise.map _ (fun a b hab => hab) ht)

/-- Witness for C9: `stateB` satisfies the invariant and toggling in a new
(element, module) pair preserves it; the template hypothesis is vacuous for
a toggle operation. -/
theorem uniquePairs_applyOp_witness :
    uniquePairs stateB.selectedElements ∧
      uniquePairs (applyOp (Op.elementToggle elementDef1 moduleA 99)
        stateB).selectedElements :=
  ⟨by with_unfolding_all decide,
    uniquePairs_applyOp _ _ (by with_unfolding_all decide) (fun t ht => nomatch ht)⟩

/-! ## C5: substitution is whole-token replacement, independent of
parameter order.

The development below characterizes `replaceTokens` through the maximal-run
view (`replaceTokens_cons_word`), shows that substituting a numeric value
for one identifier cannot create, destroy or change a whole-token occurrence
of a different identifier, and concludes that the substitution loop — and
with it `evaluateFormula` — is invariant under permuting the parameter
array, for identifier-named parameters with distinct names and numeric
values. -/

/-- The string either is empty or starts with a non-word character — the
shape of everything that follows a completed maximal word run. -/
def headNonWord : List Char → Prop
  | [] => True
  | c :: _ => isWordChar c = false

/-- Scanner: every maximal word run begins with a digit.  This is the shape
of `Number.prototype.toString` output for (finite) numeric parameter values:
`5`, `-3`, `2.5`, `1e+21` all decompose into runs led by digits. -/
def runStartsDigit : Bool → List Char → Bool
  | _, [] => true
  | prevWord, c :: cs =>
      (if isWordChar c && !prevWord then isDigitC c else true)
        && runStartsDigit (isWordChar c) cs

/-- Textual form of a numeric value: no word run starts with a letter or
underscore. -/
def numericText (v : List Char) : Bool := runStartsDigit false v

/-- Flushing an empty run emits nothing (the pattern's name is nonempty). -/
lemma flushRun_nil {name : List Char} (val : List Char) (hname : name ≠ []) :
    flushRun name val [] = [] := by
  unfold flushRun
  exact if_neg (fun h => hname h.symm)

/-- Closed form of the accumulator worker: the pending run extends over the
maximal word prefix, gets flushed, and the scan restarts after it. -/
lemma replaceTokensAux_run {name : List Char} (val : List Char) (hname : name ≠ []) :
    ∀ (cs acc : List Char),
      replaceTokensAux name val acc cs
        = flushRun name val (acc ++ cs.takeWhile isWordChar)
          ++ replaceTokensAux name val [] (cs.dropWhile isWordChar) := by
  intro cs
  induction cs with
  | nil =>
      intro acc
      simp only [replaceTokensAux, List.takeWhile_nil, List.dropWhile_nil,
        List.append_nil]
      rw [flushRun_nil val hname, List.append_nil]
  | cons c cs ih =>
      intro acc
      by_cases hw : isWordChar c
      · simp only [replaceTokensAux]
        rw [if_pos hw, ih (acc ++ [c]), List.takeWhile_cons_of_pos hw,
          List.dropWhile_cons_of_pos hw]
        congr 1
        simp
      · simp only [replaceTokensAux]
        rw [if_neg hw, List.takeWhile_cons_of_neg hw,
          List.dropWhile_cons_of_neg hw, List.append_nil]
        simp only [replaceTokensAux]
        rw [if_neg hw, flushRun_nil val hname, List.nil_append]

/-- `replaceTokens` on the empty string. -/
lemma replaceTokens_nil {name : List Char} (val : List Char) (hname : name ≠ []) :
    replaceTokens name val [] = [] := by
  unfold replaceTokens
  simp only [replaceTokensAux]
  exact flushRun_nil val hname

/-- `replaceTokens` passes over a non-word character. -/
lemma replaceTokens_cons_nonword {name : List Char} (val : List Char) {c : Char}
    (cs : List Char) (hc : ¬ isWordChar c) (hname : name ≠ []) :
    replaceTokens name val (c :: cs) = c :: replaceTokens name val cs := by
  unfold replaceTokens
  simp only [replaceTokensAux]
  rw [if_neg hc, flushRun_nil val hname, List.nil_append]

/-- `replaceTokens` at a word character: the whole maximal run is flushed —
rewritten iff it equals the name — and the scan continues after it. -/
lemma replaceTokens_cons_word {name : List Char} (val : List Char) {c : Char}
    (cs : List Char) (hc : isWordChar c) (hname : name ≠ []) :
    replaceTokens name val (c :: cs)
      = flushRun name val (c :: cs.takeWhile isWordChar)
        ++ replaceTokens name val (cs.dropWhile isWordChar) := by
  unfold replaceTokens
  simp only [replaceTokensAux]
  rw [if_pos hc, show ([] : List Char) ++ [c] = [c] from rfl,
    replaceTokensAux_run val hname cs [c]]
  rfl

/-- What remains after dropping the maximal word prefix starts non-word. -/
lemma headNonWord_dropWhile (l : List Char) :
    headNonWord (l.dropWhile isWordChar) := by
  induction l with
  | nil => trivial
  | cons c cs ih =>
      by_cases hw : isWordChar c
      · rw [List.dropWhile_cons_of_pos hw]
        exact ih
      · rw [List.dropWhile_cons_of_neg hw]
        simpa [headNonWord] using hw

/-- Token replacement keeps the head-non-word shape. -/
lemma headNonWord_replaceTokens {name : List Char} (val : List Char)
    (X : List Char) (hname : name ≠ []) (hX : headNonWord X) :
    headNonWord (replaceTokens name val X) := by
  cases X with
  | nil =>
      rw [replaceTokens_nil val hname]
      trivial
  | cons c cs =>
      have hc : ¬ isWordChar c := by simpa [headNonWord] using hX
      rw [replaceTokens_cons_nonword val cs hc hname]
      simpa [headNonWord] using hc

/-- Appending a head-non-word suffix does not extend the word prefix. -/
lemma takeWhile_append_headNonWord (v X : List Char) (hX : headNonWord X) :
    (v ++ X).takeWhile isWordChar = v.takeWhile isWordChar ∧
      (v ++ X).dropWhile isWordChar = v.dropWhile isWordChar ++ X := by
  induction v with
  | nil =>
      cases X with
      | nil => simp
      | cons c cs =>
          have hc : ¬ isWordChar c := by simpa [headNonWord] using hX
          simp [List.takeWhile_cons_of_neg hc, List.dropWhile_cons_of_neg hc]
  | cons c v ih =>
      by_cases hw : isWordChar c
      · simp only [List.cons_append, List.takeWhile_cons_of_pos hw,
          List.dropWhile_cons_of_pos hw]
        exact ⟨by rw [ih.1], ih.2⟩
      · simp [List.takeWhile_cons_of_neg hw, List.dropWhile_cons_of_neg hw]

/-- An all-word prefix is exactly the word prefix of its extension by a
head-non-word suffix. -/
lemma takeWhile_append_allWord (r X : List Char) (hr : r.all isWordChar = true)
    (hX : headNonWord X) :
    (r ++ X).takeWhile isWordChar = r ∧ (r ++ X).dropWhile isWordChar = X := by
  induction r with
  | nil =>
      simpa using takeWhile_append_headNonWord [] X hX
  | cons c r ih =>
      simp only [List.all_cons, Bool.and_eq_true] at hr
      simp only [List.cons_append, List.takeWhile_cons_of_pos hr.1,
        List.dropWhile_cons_of_pos hr.1]
      exact ⟨by rw [(ih hr.2).1], (ih hr.2).2⟩

/-- Replacement distributes over a completed run followed by head-non-word
text: the run is flushed on its own and the suffix processed on its own. -/
lemma replaceTokens_run_append {name : List Char} (val : List Char)
    (r X : List Char) (hname : name ≠ []) (hr : r ≠ [])
    (hrw : r.all isWordChar = true) (hX : headNonWord X) :
    replaceTokens name val (r ++ X)
      = flushRun name val r ++ replaceTokens name val X := by
  cases r with
  | nil => exact absurd rfl hr
  | cons c r' =>
      simp only [List.all_cons, Bool.and_eq_true] at hrw
      rw [List.cons_append, replaceTokens_cons_word val (r' ++ X) hrw.1 hname,
        (takeWhile_append_allWord r' X hrw.2 hX).1,
        (takeWhile_append_allWord r' X hrw.2 hX).2]

/-- Dropping a prefix never lengthens a list. -/
lemma dropWhile_length_le (p : Char → Bool) (l : List Char) :
    (l.dropWhile p).length ≤ l.length := by
  induction l with
  | nil => simp
  | cons c cs ih =>
      by_cases hc : p c
      · rw [List.dropWhile_cons_of_pos hc]
        exact Nat.le_succ_of_le ih
      · rw [List.dropWhile_cons_of_neg hc]

/-- A digit is not a valid identifier start. -/
lemma isIdentStart_eq_false_of_digit {c : Char} (hd : isDigitC c = true) :
    isIdentStart c = false := by
  have hd' := hd
  simp only [isDigitC, Bool.and_eq_true, decide_eq_true_eq] at hd'
  rw [isIdentStart, isAlphaC]
  simp only [Bool.or_eq_false_iff, Bool.and_eq_false_iff, decide_eq_false_iff_not,
    not_le, beq_eq_false_iff_ne, ne_eq]
  refine ⟨⟨?_, ?_⟩, ?_⟩
  · omega
  · omega
  · intro hc
    subst hc
    revert hd
    decide

/-- In numeric text, a word run that begins at a non-word boundary begins
with a digit. -/
lemma runStartsDigit_head {prev : Bool} {c : Char} {cs : List Char}
    (h : runStartsDigit prev (c :: cs) = true) (hw : isWordChar c = true)
    (hp : prev = false) : isDigitC c = true := by
  subst hp
  simp only [runStartsDigit, Bool.and_eq_true] at h
  have h1 := h.1
  rw [hw] at h1
  simpa using h1

/-- The scanner steps across one character. -/
lemma runStartsDigit_tail {prev : Bool} {c : Char} {cs : List Char}
    (h : runStartsDigit prev (c :: cs) = true) :
    runStartsDigit (isWordChar c) cs = true := by
  simp only [runStartsDigit, Bool.and_eq_true] at h
  exact h.2

/-- After dropping the maximal word prefix, numeric text is numeric again
(the scanner restarts cleanly at the following non-word character). -/
lemma runStartsDigit_dropWhile :
    ∀ (l : List Char) (prev : Bool), runStartsDigit prev l = true →
      runStartsDigit false (l.dropWhile isWordChar) = true := by
  intro l
  induction l with
  | nil => intro prev _; simp [runStartsDigit]
  | cons c cs ih =>
      intro prev h
      by_cases hw : isWordChar c
      · rw [List.dropWhile_cons_of_pos hw]
        exact ih _ (runStartsDigit_tail h)
      · rw [List.dropWhile_cons_of_neg hw]
        have hw' : isWordChar c = false := by rwa [Bool.not_eq_true] at hw
        simp only [runStartsDigit, Bool.and_eq_true]
        refine ⟨by simp [hw'], ?_⟩
        rw [hw']
        have := runStartsDigit_tail h
        rwa [hw'] at this

/-- A run led by a digit is never an identifier-like name. -/
lemma run_ne_identName {name : List Char} {c : Char} (t : List Char)
    (hn : isIdentName name = true) (hd : isDigitC c = true) :
    c :: t ≠ name := by
  intro h
  cases name with
  | nil => simp [isIdentName] at hn
  | cons c₀ n' =>
      simp only [isIdentName, Bool.and_eq_true] at hn
      have hc : c = c₀ := (List.cons.injEq c t c₀ n').mp h |>.1
      rw [← hc] at hn
      rw [isIdentStart_eq_false_of_digit hd] at hn
      exact absurd hn.1 (by simp)

/-- An identifier-like name is nonempty. -/
lemma identName_ne_nil {name : List Char} (hn : isIdentName name = true) :
    name ≠ [] := by
  intro h
  rw [h] at hn
  simp [isIdentName] at hn

/-- Inserting numeric text is inert: replacing an identifier in `v ++ X`
where `v` is numeric and `X` starts non-word touches only `X` — the numeric
text contains no whole-token occurrence of any identifier, and its runs
cannot merge with what follows. -/
lemma replaceTokens_numeric_append {name : List Char} (val : List Char)
    (hn : isIdentName name = true) :
    ∀ (N : Nat) (v X : List Char), v.length ≤ N → numericText v = true →
      headNonWord X →
      replaceTokens name val (v ++ X) = v ++ replaceTokens name val X := by
  have hname : name ≠ [] := identName_ne_nil hn
  intro N
  induction N with
  | zero =>
      intro v X hv _ _
      rw [Nat.le_zero, List.length_eq_zero] at hv
      rw [hv, List.nil_append, List.nil_append]
  | succ N ih =>
      intro v X hlen hnum hX
      cases v with
      | nil => rw [List.nil_append, List.nil_append]
      | cons c v' =>
          by_cases hw : isWordChar c
          · have hd : isDigitC c = true := runStartsDigit_head hnum hw rfl
            rw [List.cons_append, replaceTokens_cons_word val (v' ++ X) hw hname,
              (takeWhile_append_headNonWord v' X hX).1,
              (takeWhile_append_headNonWord v' X hX).2]
            have hflush : flushRun name val (c :: v'.takeWhile isWordChar)
                = c :: v'.takeWhile isWordChar :=
              if_neg (run_ne_identName _ hn hd)
            rw [hflush]
            have hrec : replaceTokens name val (v'.dropWhile isWordChar ++ X)
                = v'.dropWhile isWordChar ++ replaceTokens name val X := by
              refine ih (v'.dropWhile isWordChar) X ?_ ?_ hX
              · exact le_trans (dropWhile_length_le _ v')
                  (Nat.le_of_succ_le_succ hlen)
              · exact runStartsDigit_dropWhile v' _ (runStartsDigit_tail hnum)
            rw [hrec, List.cons_append, ← List.append_assoc,
              List.takeWhile_append_dropWhile, List.cons_append]
          · rw [List.cons_append,
              replaceTokens_cons_nonword val (v' ++ X) hw hname,
              List.cons_append]
            congr 1
            refine ih v' X (Nat.le_of_succ_le_succ hlen) ?_ hX
            have := runStartsDigit_tail hnum
            rw [Bool.not_eq_true] at hw
            rwa [hw] at this

/-- A run equal to the name is rewritten to the value. -/
lemma flushRun_eq_of_eq {name : List Char} (val run : List Char)
    (h : run = name) : flushRun name val run = val := by
  unfold flushRun
  exact if_pos h

/-- A run different from the name is kept. -/
lemma flushRun_eq_of_ne {name : List Char} (val run : List Char)
    (h : run ≠ name) : flushRun name val run = run := by
  unfold flushRun
  exact if_neg h

/-- Whole-token replacements for two distinct identifier names with numeric
values commute: every maximal run is flushed independently, a run can equal
at most one of the two names, and by `replaceTokens_numeric_append` the text
either replacement inserts is inert for the other. -/
lemma replaceTokens_comm {n₁ n₂ : List Char} (v₁ v₂ : List Char)
    (h₁ : isIdentName n₁ = true) (h₂ : isIdentName n₂ = true) (hne : n₁ ≠ n₂)
    (hv₁ : numericText v₁ = true) (hv₂ : numericText v₂ = true) :
    ∀ (N : Nat) (s : List Char), s.length ≤ N →
      replaceTokens n₁ v₁ (replaceTokens n₂ v₂ s)
        = replaceTokens n₂ v₂ (replaceTokens n₁ v₁ s) := by
  have hn₁ : n₁ ≠ [] := identName_ne_nil h₁
  have hn₂ : n₂ ≠ [] := identName_ne_nil h₂
  intro N
  induction N with
  | zero =>
      intro s hs
      rw [Nat.le_zero, List.length_eq_zero] at hs
      subst hs
      simp only [replaceTokens_nil v₁ hn₁, replaceTokens_nil v₂ hn₂]
  | succ N ih =>
      intro s hs
      cases s with
      | nil =>
          simp only [replaceTokens_nil v₁ hn₁, replaceTokens_nil v₂ hn₂]
      | cons c cs =>
          by_cases hw : isWordChar c
          · have hrest : headNonWord (cs.dropWhile isWordChar) :=
              headNonWord_dropWhile cs
            have hrunall : (c :: cs.takeWhile isWordChar).all isWordChar = true := by
              simp [hw, List.all_takeWhile]
            have hrunne : (c :: cs.takeWhile isWordChar) ≠ [] := by simp
            have hlen' : (cs.dropWhile isWordChar).length ≤ N :=
              le_trans (dropWhile_length_le _ cs) (Nat.le_of_succ_le_succ hs)
            have hX₂ : headNonWord (replaceTokens n₂ v₂ (cs.dropWhile isWordChar)) :=
              headNonWord_replaceTokens v₂ _ hn₂ hrest
            have hX₁ : headNonWord (replaceTokens n₁ v₁ (cs.dropWhile isWordChar)) :=
              headNonWord_replaceTokens v₁ _ hn₁ hrest
            rw [replaceTokens_cons_word v₂ cs hw hn₂,
              replaceTokens_cons_word v₁ cs hw hn₁]
            by_cases he₂ : c :: cs.takeWhile isWordChar = n₂
            · have he₁ : c :: cs.takeWhile isWordChar ≠ n₁ :=
                fun h => hne (h.symm.trans he₂)
              rw [flushRun_eq_of_eq v₂ _ he₂, flushRun_eq_of_ne v₁ _ he₁,
                replaceTokens_numeric_append v₁ h₁ v₂.length v₂ _ le_rfl hv₂ hX₂,
                replaceTokens_run_append v₂ _ _ hn₂ hrunne hrunall hX₁,
                flushRun_eq_of_eq v₂ _ he₂, ih _ hlen']
            · by_cases he₁ : c :: cs.takeWhile isWordChar = n₁
              · rw [flushRun_eq_of_ne v₂ _ he₂, flushRun_eq_of_eq v₁ _ he₁,
                  replaceTokens_numeric_append v₂ h₂ v₁.length v₁ _ le_rfl hv₁ hX₁,
                  replaceTokens_run_append v₁ _ _ hn₁ hrunne hrunall hX₂,
                  flushRun_eq_of_eq v₁ _ he₁, ih _ hlen']
              · rw [flushRun_eq_of_ne v₂ _ he₂, flushRun_eq_of_ne v₁ _ he₁,
                  replaceTokens_run_append v₁ _ _ hn₁ hrunne hrunall hX₂,
                  replaceTokens_run_append v₂ _ _ hn₂ hrunne hrunall hX₁,
                  flushRun_eq_of_ne v₁ _ he₁, flushRun_eq_of_ne v₂ _ he₂,
                  ih _ hlen']
          · rw [replaceTokens_cons_nonword v₂ cs hw hn₂,
              replaceTokens_cons_nonword v₁ cs hw hn₁,
              replaceTokens_cons_nonword v₁ _ hw hn₁,
              replaceTokens_cons_nonword v₂ _ hw hn₂,
              ih cs (Nat.le_of_succ_le_succ hs)]

/-- An identifier-like name is a word-character name. -/
lemma isWordName_of_isIdentName {n : List Char} (h : isIdentName n = true) :
    isWordName n = true := by
  cases n with
  | nil => simp [isIdentName] at h
  | cons c cs =>
      simp only [isIdentName, Bool.and_eq_true] at h
      simp only [isWordName, List.isEmpty_cons, Bool.not_false, Bool.true_and,
        List.all_cons, Bool.and_eq_true]
      refine ⟨?_, h.2⟩
      have hs := h.1
      simp only [isIdentStart, Bool.or_eq_true] at hs
      rcases hs with hs | hs
      · simp [isWordChar, hs]
      · simp [isWordChar, hs]

/-- Two substitution steps for distinct identifier-named, numeric-valued
parameters commute. -/
lemma substParam_comm (p q : Param)
    (hp : isIdentName p.name.data = true) (hq : isIdentName q.name.data = true)
    (hne : p.name.data ≠ q.name.data)
    (hvp : numericText p.value.data = true) (hvq : numericText q.value.data = true)
    (s : List Char) :
    substParam (substParam s p) q = substParam (substParam s q) p := by
  have ep : ∀ t, substParam t p = replaceTokens p.name.data p.value.data t :=
    fun t => by unfold substParam; rw [if_pos (isWordName_of_isIdentName hp)]
  have eq2 : ∀ t, substParam t q = replaceTokens q.name.data q.value.data t :=
    fun t => by unfold substParam; rw [if_pos (isWordName_of_isIdentName hq)]
  simp only [ep, eq2]
  exact replaceTokens_comm q.value.data p.value.data hq hp
    (fun h => hne h.symm) hvq hvp s.length s le_rfl

/-- The whole substitution loop is invariant under permuting the parameter
array, for identifier-named parameters with pairwise-distinct names and
numeric values. -/
lemma substAll_perm (s : List Char) (P Q : List Param) (hperm : P.Perm Q)
    (hid : ∀ p ∈ P, isIdentName p.name.data = true)
    (hnum : ∀ p ∈ P, numericText p.value.data = true)
    (hinj : ∀ p ∈ P, ∀ q ∈ P, p.name.data = q.name.data → p = q) :
    substAll s P = substAll s Q := by
  unfold substAll
  refine hperm.foldl_eq' ?_ s
  intro x hx y hy z
  by_cases hxy : x = y
  · subst hxy
    rfl
  · exact substParam_comm x y (hid x hx) (hid y hy)
      (fun hc => hxy (hinj x hx y hy hc)) (hnum x hx) (hnum y hy) z

/-- C5 (counterexample): the claim asserts order-independence for every
formula and parameter set, but substitution is a sequential `forEach` of
textual replacements, so a text-valued parameter whose value is itself
another parameter's name makes the result order-dependent: with
`x = "y"` and `y = 3`, the formula `x` evaluates to 3 when `x` is
substituted first (`x → y → 3`), but to 0 when `y` is substituted first
(the leftover token `y` then fails the unknown-parameter check). -/
theorem evaluateFormula_order_dependent_counterexample :
    evaluateFormula (some "x") [⟨"x", "y"⟩, ⟨"y", "3"⟩] = JsNum.num 3 ∧
      evaluateFormula (some "x") [⟨"y", "3"⟩, ⟨"x", "y"⟩] = JsNum.num 0 ∧
      evaluateFormula (some "x") [⟨"x", "y"⟩, ⟨"y", "3"⟩]
        ≠ evaluateFormula (some "x") [⟨"y", "3"⟩, ⟨"x", "y"⟩] := by
  with_unfolding_all decide

/-- C5 (amended): parameter substitution is word-boundary-correct
whole-token replacement, and its result does not depend on the order of the
parameter array for parameter sets of the shape the data model prescribes —
identifier-like, pairwise-distinct names — with numeric(-textual) values:
for any two permutations of such a set `evaluateFormula` agrees; in
particular a parameter named `w` never corrupts `width`, and
`evaluateFormula("width * 2", [{w:9},{width:5}])` is 10 in either
parameter order.  (A text-typed value that itself contains a parameter name
breaks order-independence, as the counterexample shows.) -/
theorem evaluateFormula_order_independent (f : Option String) (P Q : List Param)
    (hperm : P.Perm Q)
    (hid : ∀ p ∈ P, isIdentName p.name.data = true)
    (hnum : ∀ p ∈ P, numericText p.value.data = true)
    (hinj : ∀ p ∈ P, ∀ q ∈ P, p.name.data = q.name.data → p = q) :
    evaluateFormula f P = evaluateFormula f Q ∧
      evaluateFormula (some "width * 2") [⟨"w", "9"⟩, ⟨"width", "5"⟩] = JsNum.num 10 ∧
      evaluateFormula (some "width * 2") [⟨"width", "5"⟩, ⟨"w", "9"⟩] = JsNum.num 10 := by
  refine ⟨?_, by with_unfolding_all decide, by with_unfolding_all decide⟩
  cases f with
  | none => rfl
  | some f =>
      simp only [evaluateFormula]
      rw [substAll_perm f.data P Q hperm hid hnum hinj]

/-- Witness for C5 at the spec's example: swapping the `w` and `width`
parameters does not change the result, which is 10 — `w` is matched only as
a whole token and never inside `width`. -/
theorem evaluateFormula_order_independent_witness :
    evaluateFormula (some "width * 2") [⟨"w", "9"⟩, ⟨"width", "5"⟩]
        = evaluateFormula (some "width * 2") [⟨"width", "5"⟩, ⟨"w", "9"⟩] ∧
      evaluateFormula (some "width * 2") [⟨"w", "9"⟩, ⟨"width", "5"⟩] = JsNum.num 10 :=
  ⟨(evaluateFormula_order_independent (some "width * 2")
      [⟨"w", "9"⟩, ⟨"width", "5"⟩] [⟨"width", "5"⟩, ⟨"w", "9"⟩]
      (List.Perm.swap (⟨"width", "5"⟩ : Param) ⟨"w", "9"⟩ [])
      (by with_unfolding_all decide) (by with_unfolding_all decide)
      (by with_unfolding_all decide)).1,
    (evaluateFormula_order_independent none [] [] (List.Perm.refl [])
      (by simp) (by simp) (by simp)).2.1⟩

end Simpleprojex
